import Mathlib

/- Shallow embedding of the continuous speech-utterance segmentation engine of
   src/python_frontend/ai_inter.py (class SpeechRecognitionThread), together with
   the microphone auto-selection heuristic of the same file and the empty-text
   recognition retry of src/python_frontend/ai_desktop.py.

   Strings are modelled as `List Char`.  Timestamps are integers counting
   milliseconds, so every float constant of the source scales exactly:
   1.5 s = 1500, 3.3 s = 3300, 0.75 s = 750, 0.7 s = 700, 0.55 s = 550,
   0.22 s = 220, 75 s = 75000. -/

namespace AIInterview

/-- Whitespace test used by Python str.strip and str.split, restricted to the
ASCII whitespace characters: space, tab, newline, carriage return, vertical
tab, form feed. -/
def isPySpace (c : Char) : Bool :=
  c == ' ' || c == '\t' || c == '\n' || c == '\r' || c == '\x0b' || c == '\x0c'

/-- Python str.strip: remove leading and trailing whitespace. -/
def pyStrip (l : List Char) : List Char :=
  ((l.dropWhile isPySpace).reverse.dropWhile isPySpace).reverse

/-- Python substring membership `sub in big`. -/
def pyContains (sub : List Char) : List Char → Bool
  | [] => sub.isEmpty
  | c :: t => sub.isPrefixOf (c :: t) || pyContains sub t

/-- The overlap scan of SpeechRecognitionThread._merge_transcript
(ai_inter.py lines 410-413): try overlap lengths from the fuel value down to 1;
at the first k where the last k characters of existing equal the first k
characters of newPart, return existing with newPart minus that prefix
appended. -/
def overlapScan (existing newPart : List Char) : Nat → Option (List Char)
  | 0 => none
  | k + 1 =>
    if (newPart.take (k + 1)).isSuffixOf existing then
      some (existing ++ newPart.drop (k + 1))
    else overlapScan existing newPart k

/-- SpeechRecognitionThread._merge_transcript (ai_inter.py lines 395-415):
merge ASR segments, removing simple overlaps. -/
def mergeTranscript (existing0 newPart0 : List Char) : List Char :=
  let existing := pyStrip existing0
  let newPart := pyStrip newPart0
  if existing = [] then newPart
  else if newPart = [] then existing
  else if pyContains newPart existing then existing
  else if pyContains existing newPart then newPart
  else
    match overlapScan existing newPart (min 20 (min existing.length newPart.length)) with
    | some merged => pyStrip merged
    | none => pyStrip (existing ++ ' ' :: newPart)

example :
    mergeTranscript "what is your".toList "is your".toList = "what is your".toList := by
  decide

example :
    mergeTranscript "tell me about".toList "the weather".toList =
      "tell me abouthe weather".toList := by decide

example :
    mergeTranscript "tell me about".toList "your hobbies".toList =
      "tell me about your hobbies".toList := by decide

/-- Last character of a list, phrased through reverse so that all end-of-list
reasoning reduces to head-of-list reasoning. -/
def lastCh (l : List Char) : Option Char := l.reverse.head?

theorem head_dropWhile_false (p : Char → Bool) :
    ∀ (l : List Char), ∀ c ∈ (l.dropWhile p).head?, p c = false := by
  intro l
  induction l with
  | nil => intro c hc; simp at hc
  | cons a t ih =>
    intro c hc
    rw [List.dropWhile_cons] at hc
    by_cases h : p a
    · rw [if_pos h] at hc
      exact ih c hc
    · rw [if_neg h] at hc
      simp only [List.head?_cons, Option.mem_def, Option.some.injEq] at hc
      subst hc
      exact Bool.eq_false_iff.2 h

theorem dropWhile_eq_self_of_head (p : Char → Bool) (l : List Char)
    (h : ∀ c ∈ l.head?, p c = false) : l.dropWhile p = l := by
  cases l with
  | nil => rfl
  | cons a t =>
    have ha : p a = false := h a (by simp)
    rw [List.dropWhile_cons, if_neg (by simp [ha])]

theorem head_append_left (l r : List Char) (h : l ≠ []) : (l ++ r).head? = l.head? := by
  cases l with
  | nil => exact absurd rfl h
  | cons a t => simp

theorem lastCh_append_right (l r : List Char) (h : r ≠ []) : lastCh (l ++ r) = lastCh r := by
  unfold lastCh
  rw [List.reverse_append]
  exact head_append_left _ _ (by simp [h])

theorem lastCh_cons (a : Char) (l : List Char) (h : l ≠ []) : lastCh (a :: l) = lastCh l := by
  have : a :: l = [a] ++ l := rfl
  rw [this, lastCh_append_right _ _ h]

theorem lastCh_dropWhile (p : Char → Bool) :
    ∀ (l : List Char), l.dropWhile p ≠ [] → lastCh (l.dropWhile p) = lastCh l := by
  intro l
  induction l with
  | nil => intro h; simp [List.dropWhile] at h
  | cons a t ih =>
    intro h
    rw [List.dropWhile_cons] at h ⊢
    by_cases hpa : p a
    · rw [if_pos hpa] at h ⊢
      have ht : t ≠ [] := by
        intro he
        subst he
        simp [List.dropWhile] at h
      rw [ih h, lastCh_cons _ _ ht]
    · rw [if_neg hpa]

theorem pyStrip_eq_self (l : List Char)
    (h1 : ∀ c ∈ l.head?, isPySpace c = false)
    (h2 : ∀ c ∈ lastCh l, isPySpace c = false) : pyStrip l = l := by
  unfold pyStrip
  rw [dropWhile_eq_self_of_head _ _ h1, dropWhile_eq_self_of_head _ _ h2,
    List.reverse_reverse]

theorem head_pyStrip (l : List Char) : ∀ c ∈ (pyStrip l).head?, isPySpace c = false := by
  intro c hc
  by_cases hz : (l.dropWhile isPySpace).reverse.dropWhile isPySpace = []
  · have : pyStrip l = [] := by unfold pyStrip; rw [hz]; rfl
    rw [this] at hc
    simp at hc
  · have hc' : c ∈ lastCh ((l.dropWhile isPySpace).reverse.dropWhile isPySpace) := hc
    rw [lastCh_dropWhile _ _ hz] at hc'
    have hc'' : c ∈ ((l.dropWhile isPySpace).reverse.reverse).head? := hc'
    rw [List.reverse_reverse] at hc''
    exact head_dropWhile_false _ _ _ hc''

theorem lastCh_pyStrip (l : List Char) : ∀ c ∈ lastCh (pyStrip l), isPySpace c = false := by
  intro c hc
  have hc' :
      c ∈ (((l.dropWhile isPySpace).reverse.dropWhile isPySpace).reverse.reverse).head? := hc
  rw [List.reverse_reverse] at hc'
  exact head_dropWhile_false _ _ _ hc'

theorem pyStrip_idem (l : List Char) : pyStrip (pyStrip l) = pyStrip l :=
  pyStrip_eq_self _ (head_pyStrip l) (lastCh_pyStrip l)

theorem head_of_stripped {b : List Char} (h : pyStrip b = b) :
    ∀ c ∈ b.head?, isPySpace c = false := by
  intro c hc
  rw [← h] at hc
  exact head_pyStrip b c hc

theorem lastCh_of_stripped {b : List Char} (h : pyStrip b = b) :
    ∀ c ∈ lastCh b, isPySpace c = false := by
  intro c hc
  rw [← h] at hc
  exact lastCh_pyStrip b c hc

theorem pyStrip_append_eq_self {b r : List Char} (hb : b ≠ []) (hr : r ≠ [])
    (h1 : ∀ c ∈ b.head?, isPySpace c = false)
    (h2 : ∀ c ∈ lastCh r, isPySpace c = false) :
    pyStrip (b ++ r) = b ++ r := by
  apply pyStrip_eq_self
  · rw [head_append_left _ _ hb]
    exact h1
  · rw [lastCh_append_right _ _ hr]
    exact h2

theorem pyContains_iff {sub : List Char} :
    ∀ {big : List Char}, pyContains sub big = true ↔ sub <:+: big := by
  intro big
  induction big with
  | nil => simp [pyContains, List.isEmpty_iff, List.infix_nil]
  | cons a t ih =>
    simp [pyContains, Bool.or_eq_true, List.isPrefixOf_iff_prefix, ih, List.infix_cons_iff]

theorem overlapScan_eq_some {e s : List Char} :
    ∀ n k, 1 ≤ k → k ≤ n → (s.take k).isSuffixOf e = true →
      (∀ j, k < j → j ≤ n → (s.take j).isSuffixOf e = false) →
      overlapScan e s n = some (e ++ s.drop k) := by
  intro n
  induction n with
  | zero => intro k h1 h2 _ _; omega
  | succ m ih =>
    intro k h1 h2 hc hmax
    unfold overlapScan
    by_cases h : (s.take (m + 1)).isSuffixOf e = true
    · rw [if_pos h]
      have hk : k = m + 1 := by
        by_contra hne
        have := hmax (m + 1) (by omega) (le_refl _)
        rw [this] at h
        exact Bool.false_ne_true h
      subst hk
      rfl
    · rw [if_neg h]
      have hk : k ≤ m := by
        rcases Nat.lt_or_ge k (m + 1) with h' | h'
        · omega
        · have he : k = m + 1 := by omega
          subst he
          exact absurd hc h
      exact ih k h1 hk hc fun j hj1 hj2 => hmax j hj1 (by omega)

theorem overlapScan_eq_none {e s : List Char} :
    ∀ n, (∀ k, 1 ≤ k → k ≤ n → (s.take k).isSuffixOf e = false) →
      overlapScan e s n = none := by
  intro n
  induction n with
  | zero => intro _; rfl
  | succ m ih =>
    intro h
    unfold overlapScan
    rw [if_neg (by simp [h (m + 1) (by omega) (le_refl _)])]
    exact ih fun k h1 h2 => h k h1 (by omega)

theorem overlapScan_some_inv {e s : List Char} :
    ∀ n r, overlapScan e s n = some r →
      ∃ k, 1 ≤ k ∧ k ≤ n ∧ (s.take k).isSuffixOf e = true ∧ r = e ++ s.drop k := by
  intro n
  induction n with
  | zero => intro r h; exact absurd h (by simp [overlapScan])
  | succ m ih =>
    intro r h
    unfold overlapScan at h
    by_cases hc : (s.take (m + 1)).isSuffixOf e = true
    · rw [if_pos hc] at h
      exact ⟨m + 1, by omega, le_refl _, hc, (Option.some.inj h).symm⟩
    · rw [if_neg hc] at h
      obtain ⟨k, h1, h2, h3, h4⟩ := ih r h
      exact ⟨k, h1, by omega, h3, h4⟩

theorem mergeTranscript_eq (b s : List Char) :
    mergeTranscript b s =
      if pyStrip b = [] then pyStrip s
      else if pyStrip s = [] then pyStrip b
      else if pyContains (pyStrip s) (pyStrip b) then pyStrip b
      else if pyContains (pyStrip b) (pyStrip s) then pyStrip s
      else
        match overlapScan (pyStrip b) (pyStrip s)
            (min 20 (min (pyStrip b).length (pyStrip s).length)) with
        | some merged => pyStrip merged
        | none => pyStrip (pyStrip b ++ ' ' :: pyStrip s) := rfl

theorem mergeTranscript_of_not_contains {b s : List Char}
    (hbs : pyStrip b = b) (hss : pyStrip s = s) (hb : b ≠ []) (hs : s ≠ [])
    (hns : pyContains s b = false) (hnb : pyContains b s = false) :
    mergeTranscript b s =
      match overlapScan b s (min 20 (min b.length s.length)) with
      | some merged => pyStrip merged
      | none => pyStrip (b ++ ' ' :: s) := by
  rw [mergeTranscript_eq, hbs, hss, if_neg hb, if_neg hs, if_neg (by simp [hns]),
    if_neg (by simp [hnb])]

theorem take_suffix_lt_length {b s : List Char} {k : Nat}
    (hns : pyContains s b = false)
    (hc : (s.take k).isSuffixOf b = true) : k < s.length := by
  rcases Nat.lt_or_ge k s.length with h | h
  · exact h
  · exfalso
    have hks : s.take k = s := List.take_of_length_le h
    rw [hks] at hc
    have : s <:+: b := (List.isSuffixOf_iff_suffix.1 hc).isInfix
    rw [← pyContains_iff] at this
    rw [hns] at this
    exact Bool.false_ne_true this

theorem lastCh_drop {s : List Char} {k : Nat} (h : s.drop k ≠ []) :
    lastCh (s.drop k) = lastCh s := by
  conv_rhs => rw [← List.take_append_drop k s]
  rw [lastCh_append_right _ _ h]

/-- C1: the accumulator merge follows the longest-suffix and prefix algorithm.
For non-empty stripped buffer b and non-empty stripped segment s where neither
is a substring of the other: if k is the first overlap length found when
scanning from min(20, len(b), len(s)) down to 1 with the last k characters of
b equal to the first k characters of s, the merge is b with the segment minus
its first k characters appended; if no overlap length works, the merge is b and
s joined by a single space.  In particular the merge of
"tell me about your" with "your last project" is
"tell me about your last project". -/
theorem merge_overlap_algorithm (b s : List Char)
    (hbs : pyStrip b = b) (hss : pyStrip s = s) (hb : b ≠ []) (hs : s ≠ [])
    (hns : pyContains s b = false) (hnb : pyContains b s = false) :
    (∀ k, 1 ≤ k → k ≤ min 20 (min b.length s.length) →
      (s.take k).isSuffixOf b = true →
      (∀ j, k < j → j ≤ min 20 (min b.length s.length) → (s.take j).isSuffixOf b = false) →
      mergeTranscript b s = b ++ s.drop k) ∧
    ((∀ k, 1 ≤ k → k ≤ min 20 (min b.length s.length) → (s.take k).isSuffixOf b = false) →
      mergeTranscript b s = b ++ ' ' :: s) ∧
    mergeTranscript "tell me about your".toList "your last project".toList =
      "tell me about your last project".toList := by
  refine ⟨?_, ?_, by decide⟩
  · intro k hk1 hk2 hc hmax
    rw [mergeTranscript_of_not_contains hbs hss hb hs hns hnb,
      overlapScan_eq_some _ k hk1 hk2 hc hmax]
    have hklt : k < s.length := take_suffix_lt_length hns hc
    have hdrop : s.drop k ≠ [] := by
      intro hdp
      rw [List.drop_eq_nil_iff] at hdp
      omega
    exact pyStrip_append_eq_self hb hdrop (head_of_stripped hbs)
      (by rw [lastCh_drop hdrop]; exact lastCh_of_stripped hss)
  · intro hnone
    rw [mergeTranscript_of_not_contains hbs hss hb hs hns hnb, overlapScan_eq_none _ hnone]
    exact pyStrip_append_eq_self hb (by simp) (head_of_stripped hbs)
      (by rw [lastCh_cons _ _ hs]; exact lastCh_of_stripped hss)

/-- Witness for C1 at the concrete buffer and segment from the spec example. -/
theorem merge_overlap_algorithm_witness :
    mergeTranscript "tell me about your".toList "your last project".toList =
      "tell me about your last project".toList :=
  (merge_overlap_algorithm "tell me about your".toList "your last project".toList
    (by decide) (by decide) (by decide) (by decide) (by decide) (by decide)).2.2

theorem pyStrip_mergeTranscript (b s : List Char) :
    pyStrip (mergeTranscript b s) = mergeTranscript b s := by
  rw [mergeTranscript_eq]
  by_cases h1 : pyStrip b = []
  · rw [if_pos h1]
    exact pyStrip_idem s
  · rw [if_neg h1]
    by_cases h2 : pyStrip s = []
    · rw [if_pos h2]
      exact pyStrip_idem b
    · rw [if_neg h2]
      by_cases h3 : pyContains (pyStrip s) (pyStrip b) = true
      · rw [if_pos h3]
        exact pyStrip_idem b
      · rw [if_neg h3]
        by_cases h4 : pyContains (pyStrip b) (pyStrip s) = true
        · rw [if_pos h4]
          exact pyStrip_idem s
        · rw [if_neg h4]
          cases hscan : overlapScan (pyStrip b) (pyStrip s)
              (min 20 (min (pyStrip b).length (pyStrip s).length)) with
          | none => exact pyStrip_idem _
          | some merged => exact pyStrip_idem _

theorem pyStrip_infix_mergeTranscript (b s : List Char) :
    pyStrip s <:+: mergeTranscript b s := by
  rw [mergeTranscript_eq]
  by_cases h1 : pyStrip b = []
  · rw [if_pos h1]
  · rw [if_neg h1]
    by_cases h2 : pyStrip s = []
    · rw [if_pos h2, h2]
      exact List.nil_infix
    · rw [if_neg h2]
      by_cases h3 : pyContains (pyStrip s) (pyStrip b) = true
      · rw [if_pos h3]
        exact pyContains_iff.1 h3
      · rw [if_neg h3]
        by_cases h4 : pyContains (pyStrip b) (pyStrip s) = true
        · rw [if_pos h4]
        · rw [if_neg h4]
          cases hscan : overlapScan (pyStrip b) (pyStrip s)
              (min 20 (min (pyStrip b).length (pyStrip s).length)) with
          | none =>
            show pyStrip s <:+: pyStrip (pyStrip b ++ ' ' :: pyStrip s)
            rw [pyStrip_append_eq_self h1 (by simp) (head_pyStrip b)
              (by rw [lastCh_cons _ _ h2]; exact lastCh_pyStrip s)]
            have hsuf : pyStrip s <:+ pyStrip b ++ ' ' :: pyStrip s :=
              ⟨pyStrip b ++ [' '], by simp⟩
            exact hsuf.isInfix
          | some merged =>
            show pyStrip s <:+: pyStrip merged
            obtain ⟨k, hk1, hk2, hc, hr⟩ := overlapScan_some_inv _ _ hscan
            subst hr
            have hklt : k < (pyStrip s).length :=
              take_suffix_lt_length (Bool.eq_false_iff.2 h3) hc
            have hdrop : (pyStrip s).drop k ≠ [] := by
              intro hdp
              rw [List.drop_eq_nil_iff] at hdp
              omega
            rw [pyStrip_append_eq_self h1 hdrop (head_pyStrip b)
              (by rw [lastCh_drop hdrop]; exact lastCh_pyStrip s)]
            obtain ⟨t, ht⟩ := List.isSuffixOf_iff_suffix.1 hc
            have heq : pyStrip b ++ (pyStrip s).drop k = t ++ pyStrip s := by
              rw [← List.take_append_drop k (pyStrip s), ← List.append_assoc, ht,
                List.take_append_drop]
            exact (show pyStrip s <:+ pyStrip b ++ (pyStrip s).drop k from
              ⟨t, heq.symm⟩).isInfix

/-- C9: the merge absorbs its segment.  For all strings b and s, the stripped
segment is a substring of the merge result, and merging the same segment a
second time is a no-op. -/
theorem merge_absorbs_segment (b s : List Char) :
    pyContains (pyStrip s) (mergeTranscript b s) = true ∧
    mergeTranscript (mergeTranscript b s) s = mergeTranscript b s := by
  refine ⟨pyContains_iff.2 (pyStrip_infix_mergeTranscript b s), ?_⟩
  rw [mergeTranscript_eq (mergeTranscript b s) s, pyStrip_mergeTranscript b s]
  by_cases hm : mergeTranscript b s = []
  · rw [if_pos hm]
    have h1 := pyStrip_infix_mergeTranscript b s
    rw [hm, List.infix_nil] at h1
    rw [h1, hm]
  · rw [if_neg hm]
    by_cases hs2 : pyStrip s = []
    · rw [if_pos hs2]
    · rw [if_neg hs2,
        if_pos (pyContains_iff.2 (pyStrip_infix_mergeTranscript b s))]

/- Tuning constants of SpeechRecognitionThread.__init__ (ai_inter.py lines
157-164), in milliseconds: _short_silence_sec = 1.5, _final_silence_sec = 3.3,
_confirm_pause_sec = 0.7, _max_utterance_sec = 75.0. -/

def shortSilenceMs : Int := 1500

def finalSilenceMs : Int := 3300

def confirmPauseMs : Int := 700

def maxUtteranceMs : Int := 75000

/-- Mutable utterance state of SpeechRecognitionThread: _buffer_text,
_last_speech_ts, _utterance_start_ts, _pending_finalize_since.  The Python
initial value 0.0 of each timestamp stands for unset. -/
structure UttState where
  bufferText : List Char
  lastSpeechTs : Int
  utteranceStartTs : Int
  pendingFinalizeSince : Int
deriving DecidableEq

/-- State when listening starts: empty buffer, all timestamps unset. -/
def initState : UttState := ⟨[], 0, 0, 0⟩

/-- Helper of wordCount: count maximal whitespace-free runs, tracking whether
the scan is inside a word. -/
def wordCountAux : List Char → Bool → Nat
  | [], _ => 0
  | c :: rest, inWord =>
    if isPySpace c then wordCountAux rest false
    else (if inWord then 0 else 1) + wordCountAux rest true

/-- Python len(text.split()). -/
def wordCount (l : List Char) : Nat := wordCountAux l false

/-- Python str.lower, character by character. -/
def toLowerList (l : List Char) : List Char := l.map Char.toLower

/-- Apostrophe character, used by the closing phrases. -/
def apos : Char := Char.ofNat 39

/-- Closing phrases checked by _maybe_finalize (ai_inter.py line 347):
"thank you" and the two phrases "that+apostrophe+s it / all". -/
def closingPhrases : List (List Char) :=
  ["thank you".toList,
   "that".toList ++ apos :: "s it".toList,
   "that".toList ++ apos :: "s all".toList]

/-- ends_sentence of _maybe_finalize (ai_inter.py lines 346-347): the stripped
buffer ends in one of "? . ! :", or the lowercased buffer contains a closing
phrase. -/
def endsSentence (buf : List Char) : Bool :=
  ([['?'], ['.'], ['!'], [':']].any fun p => p.isSuffixOf (pyStrip buf)) ||
    closingPhrases.any fun k => pyContains k (toLowerList buf)

/-- question_starters of _maybe_finalize (ai_inter.py lines 350-353), each
with its trailing space. -/
def questionStarters : List (List Char) :=
  ["what ".toList, "why ".toList, "how ".toList, "is ".toList, "are ".toList,
   "can ".toList, "does ".toList, "do ".toList, "did ".toList, "will ".toList,
   "would ".toList, "should ".toList, "could ".toList, "tell me ".toList,
   "explain ".toList, "when ".toList, "where ".toList, "which ".toList]

/-- is_short_question of _maybe_finalize (ai_inter.py line 356): at most 8
words, or the stripped lowercased buffer starts like a question, or it ends
with a question mark. -/
def isShortQuestion (buf : List Char) : Bool :=
  decide (wordCount buf ≤ 8) ||
    (questionStarters.any fun q => q.isPrefixOf (toLowerList (pyStrip buf))) ||
    ['?'].isSuffixOf (toLowerList (pyStrip buf))

/-- utterance_duration of _maybe_finalize (ai_inter.py line 344): now minus
start while an utterance is in progress, else 0. -/
def utteranceDuration (st : UttState) (now : Int) : Int :=
  if 0 < st.utteranceStartTs then now - st.utteranceStartTs else 0

/-- candidate of _maybe_finalize (ai_inter.py lines 363-371): disjunction of
the long-utterance, sentence-end, hard-silence, max-duration and
short-question rules, with silence = now - last_speech_ts. -/
def candidateCond (st : UttState) (now : Int) : Prop :=
  (10 ≤ wordCount st.bufferText ∧ shortSilenceMs ≤ now - st.lastSpeechTs) ∨
  (endsSentence st.bufferText = true ∧ 750 ≤ now - st.lastSpeechTs) ∨
  (finalSilenceMs ≤ now - st.lastSpeechTs) ∨
  (maxUtteranceMs ≤ utteranceDuration st now) ∨
  (isShortQuestion st.bufferText = true ∧ 550 ≤ now - st.lastSpeechTs)

instance candidateCondDec (st : UttState) (now : Int) : Decidable (candidateCond st now) := by
  unfold candidateCond
  infer_instance

/-- SpeechRecognitionThread._maybe_finalize (ai_inter.py lines 338-393):
returns the updated state and the optionally emitted utterance.  The state is
reset and the stripped buffer emitted only once the candidate condition has
held since a recorded pending time for at least the confirmation hold (220 ms
for short questions, 700 ms otherwise). -/
def maybeFinalize (st : UttState) (now : Int) : UttState × Option (List Char) :=
  if st.bufferText ≠ [] ∧ 0 < st.lastSpeechTs then
    if candidateCond st now then
      if st.pendingFinalizeSince = 0 then
        ({ st with pendingFinalizeSince := now }, none)
      else if now - st.pendingFinalizeSince <
          (if isShortQuestion st.bufferText then (220 : Int) else confirmPauseMs) then
        (st, none)
      else
        let finalText := pyStrip st.bufferText
        (⟨[], st.lastSpeechTs, 0, 0⟩, if finalText = [] then none else some finalText)
    else (st, none)
  else (st, none)

/-- Segment-processing part of the run loop (ai_inter.py lines 300-313): a
stripped non-empty recognition result starts utterance timing if unset, merges
into the buffer, updates the last-speech timestamp, and cancels any pending
finalization; empty text changes nothing. -/
def processSegment (st : UttState) (now : Int) (rawText : List Char) : UttState :=
  let text := pyStrip rawText
  if text = [] then st
  else
    { bufferText := if st.bufferText = [] then text else mergeTranscript st.bufferText text,
      lastSpeechTs := now,
      utteranceStartTs := if st.utteranceStartTs = 0 then now else st.utteranceStartTs,
      pendingFinalizeSince := 0 }

/-- One tick of the capture loop (ai_inter.py lines 236-333): segment
processing, then _maybe_finalize at the same tick time.  Timeout and failed
recognition ticks are ticks with empty text. -/
def stepTick (st : UttState) (now : Int) (text : List Char) :
    UttState × Option (List Char) :=
  maybeFinalize (processSegment st now text) now

/-- SpeechRecognitionThread.stop (ai_inter.py lines 417-425): flush a
non-empty buffer as one final emission; reset buffer and start timestamp. -/
def stopFlush (st : UttState) : UttState × Option (List Char) :=
  if st.bufferText = [] then (st, none)
  else
    let finalText := pyStrip st.bufferText
    ({ st with bufferText := [], utteranceStartTs := 0 },
      if finalText = [] then none else some finalText)

/-- Events driving the utterance state: a capture-loop tick at a given time
carrying the recognized text of that tick (empty on timeout or failed
recognition), or an explicit stop. -/
inductive Ev where
  | tick : Int → List Char → Ev
  | stop : Ev

/-- One event step. -/
def stepEv (st : UttState) : Ev → UttState × Option (List Char)
  | .tick now text => stepTick st now text
  | .stop => stopFlush st

/-- Run a sequence of events from a state, collecting emissions in order. -/
def runTrace (st : UttState) : List Ev → UttState × List (List Char)
  | [] => (st, [])
  | e :: rest =>
    let r := stepEv st e
    let rr := runTrace r.1 rest
    (rr.1, r.2.toList ++ rr.2)

/-- Time validity of an event sequence: tick times are positive and
nondecreasing, starting from lower bound t. -/
def ValidFrom (t : Int) : List Ev → Prop
  | [] => True
  | .tick now _ :: rest => t ≤ now ∧ 0 < now ∧ ValidFrom now rest
  | .stop :: rest => ValidFrom t rest

theorem mergeTranscript_ne_nil {b s : List Char} (hs : pyStrip s ≠ []) :
    mergeTranscript b s ≠ [] := by
  intro h
  have h1 := pyStrip_infix_mergeTranscript b s
  rw [h, List.infix_nil] at h1
  exact hs h1

theorem processSegment_of_empty {st : UttState} {now : Int} {text : List Char}
    (h : pyStrip text = []) : processSegment st now text = st := by
  simp [processSegment, h]

theorem processSegment_of_speech {st : UttState} {now : Int} {text : List Char}
    (h : pyStrip text ≠ []) :
    processSegment st now text =
      { bufferText := if st.bufferText = [] then pyStrip text
          else mergeTranscript st.bufferText (pyStrip text),
        lastSpeechTs := now,
        utteranceStartTs := if st.utteranceStartTs = 0 then now else st.utteranceStartTs,
        pendingFinalizeSince := 0 } := by
  simp [processSegment, h]

theorem maybeFinalize_no_buffer {st : UttState} {now : Int}
    (h : st.bufferText = [] ∨ ¬ 0 < st.lastSpeechTs) :
    maybeFinalize st now = (st, none) := by
  unfold maybeFinalize
  rw [if_neg]
  rintro ⟨h1, h2⟩
  rcases h with h | h
  · exact h1 h
  · exact h h2

theorem maybeFinalize_not_candidate {st : UttState} {now : Int}
    (h : ¬ candidateCond st now) : maybeFinalize st now = (st, none) := by
  unfold maybeFinalize
  by_cases hb : st.bufferText ≠ [] ∧ 0 < st.lastSpeechTs
  · rw [if_pos hb, if_neg h]
  · rw [if_neg hb]

theorem maybeFinalize_arm {st : UttState} {now : Int}
    (hb : st.bufferText ≠ []) (hl : 0 < st.lastSpeechTs)
    (hc : candidateCond st now) (hp : st.pendingFinalizeSince = 0) :
    maybeFinalize st now = ({ st with pendingFinalizeSince := now }, none) := by
  unfold maybeFinalize
  rw [if_pos ⟨hb, hl⟩, if_pos hc, if_pos hp]

theorem maybeFinalize_hold {st : UttState} {now : Int}
    (hb : st.bufferText ≠ []) (hl : 0 < st.lastSpeechTs)
    (hc : candidateCond st now) (hp : st.pendingFinalizeSince ≠ 0)
    (hh : now - st.pendingFinalizeSince <
      (if isShortQuestion st.bufferText then (220 : Int) else confirmPauseMs)) :
    maybeFinalize st now = (st, none) := by
  unfold maybeFinalize
  rw [if_pos ⟨hb, hl⟩, if_pos hc, if_neg hp, if_pos hh]

theorem maybeFinalize_fire {st : UttState} {now : Int}
    (hb : st.bufferText ≠ []) (hl : 0 < st.lastSpeechTs)
    (hc : candidateCond st now) (hp : st.pendingFinalizeSince ≠ 0)
    (hh : ¬ now - st.pendingFinalizeSince <
      (if isShortQuestion st.bufferText then (220 : Int) else confirmPauseMs)) :
    maybeFinalize st now =
      (⟨[], st.lastSpeechTs, 0, 0⟩,
        if pyStrip st.bufferText = [] then none else some (pyStrip st.bufferText)) := by
  unfold maybeFinalize
  rw [if_pos ⟨hb, hl⟩, if_pos hc, if_neg hp, if_neg hh]

/-- Reachability invariant of the utterance state at time bound t: the
data-model invariant plus the auxiliary facts the induction carries (the
buffer is stripped, timestamps are nonnegative and at most t, and a non-empty
buffer has a positive last-speech timestamp). -/
def GoodState (st : UttState) (t : Int) : Prop :=
  (st.bufferText = [] ↔ st.utteranceStartTs = 0) ∧
  (st.pendingFinalizeSince ≠ 0 → st.lastSpeechTs ≤ st.pendingFinalizeSince) ∧
  pyStrip st.bufferText = st.bufferText ∧
  0 ≤ st.lastSpeechTs ∧ st.lastSpeechTs ≤ t ∧
  0 ≤ st.utteranceStartTs ∧ st.utteranceStartTs ≤ t ∧
  0 ≤ st.pendingFinalizeSince ∧ st.pendingFinalizeSince ≤ t ∧
  (st.bufferText ≠ [] → 0 < st.lastSpeechTs)

theorem GoodState.mono {st : UttState} {t t' : Int} (h : GoodState st t) (ht : t ≤ t') :
    GoodState st t' := by
  obtain ⟨h1, h2, h3, h4, h5, h6, h7, h8, h9, h10⟩ := h
  exact ⟨h1, h2, h3, h4, le_trans h5 ht, h6, le_trans h7 ht, h8, le_trans h9 ht, h10⟩

theorem initState_good : GoodState initState 0 :=
  ⟨⟨fun _ => rfl, fun _ => rfl⟩, fun hp => absurd rfl hp, rfl, le_refl 0, le_refl 0,
    le_refl 0, le_refl 0, le_refl 0, le_refl 0, fun hne => absurd rfl hne⟩

theorem processSegment_good {st : UttState} {t now : Int} {text : List Char}
    (h : GoodState st t) (hle : t ≤ now) (h0 : 0 < now) :
    GoodState (processSegment st now text) now := by
  obtain ⟨h1, h2, h3, h4, h5, h6, h7, h8, h9, h10⟩ := h
  by_cases he : pyStrip text = []
  · rw [processSegment_of_empty he]
    exact GoodState.mono ⟨h1, h2, h3, h4, h5, h6, h7, h8, h9, h10⟩ hle
  · rw [processSegment_of_speech he]
    have hbne : (if st.bufferText = [] then pyStrip text
        else mergeTranscript st.bufferText (pyStrip text)) ≠ [] := by
      by_cases hb : st.bufferText = []
      · rw [if_pos hb]
        exact he
      · rw [if_neg hb]
        exact mergeTranscript_ne_nil (by rw [pyStrip_idem]; exact he)
    have hsne : (if st.utteranceStartTs = 0 then now else st.utteranceStartTs) ≠ 0 := by
      by_cases hs0 : st.utteranceStartTs = 0
      · rw [if_pos hs0]
        omega
      · rw [if_neg hs0]
        exact hs0
    have hsnn : 0 ≤ (if st.utteranceStartTs = 0 then now else st.utteranceStartTs) := by
      by_cases hs0 : st.utteranceStartTs = 0
      · rw [if_pos hs0]
        omega
      · rw [if_neg hs0]
        exact h6
    have hsle : (if st.utteranceStartTs = 0 then now else st.utteranceStartTs) ≤ now := by
      by_cases hs0 : st.utteranceStartTs = 0
      · rw [if_pos hs0]
      · rw [if_neg hs0]
        omega
    have hstrip : pyStrip (if st.bufferText = [] then pyStrip text
        else mergeTranscript st.bufferText (pyStrip text)) =
        (if st.bufferText = [] then pyStrip text
          else mergeTranscript st.bufferText (pyStrip text)) := by
      by_cases hb : st.bufferText = []
      · rw [if_pos hb, pyStrip_idem]
      · rw [if_neg hb, pyStrip_mergeTranscript]
    exact ⟨⟨fun hb => absurd hb hbne, fun hs => absurd hs hsne⟩,
      fun hp => absurd rfl hp, hstrip, h0.le, le_refl now, hsnn, hsle,
      le_refl 0, h0.le, fun _ => h0⟩

theorem maybeFinalize_good {st : UttState} {now : Int}
    (h : GoodState st now) : GoodState (maybeFinalize st now).1 now := by
  obtain ⟨h1, h2, h3, h4, h5, h6, h7, h8, h9, h10⟩ := h
  by_cases hb : st.bufferText ≠ [] ∧ 0 < st.lastSpeechTs
  · by_cases hc : candidateCond st now
    · by_cases hp : st.pendingFinalizeSince = 0
      · rw [maybeFinalize_arm hb.1 hb.2 hc hp]
        exact ⟨h1, fun _ => h5, h3, h4, h5, h6, h7, le_trans h4 h5, le_refl now, h10⟩
      · by_cases hh : now - st.pendingFinalizeSince <
            (if isShortQuestion st.bufferText then (220 : Int) else confirmPauseMs)
        · rw [maybeFinalize_hold hb.1 hb.2 hc hp hh]
          exact ⟨h1, h2, h3, h4, h5, h6, h7, h8, h9, h10⟩
        · rw [maybeFinalize_fire hb.1 hb.2 hc hp hh]
          exact ⟨⟨fun _ => rfl, fun _ => rfl⟩, fun hp0 => absurd rfl hp0, rfl, h4, h5,
            le_refl 0, le_trans h4 h5, le_refl 0, le_trans h4 h5,
            fun hne => absurd rfl hne⟩
    · rw [maybeFinalize_not_candidate hc]
      exact ⟨h1, h2, h3, h4, h5, h6, h7, h8, h9, h10⟩
  · rw [maybeFinalize_no_buffer (by tauto)]
    exact ⟨h1, h2, h3, h4, h5, h6, h7, h8, h9, h10⟩

theorem stopFlush_good {st : UttState} {t : Int} (h : GoodState st t) :
    GoodState (stopFlush st).1 t := by
  obtain ⟨h1, h2, h3, h4, h5, h6, h7, h8, h9, h10⟩ := h
  unfold stopFlush
  by_cases hb : st.bufferText = []
  · rw [if_pos hb]
    exact ⟨h1, h2, h3, h4, h5, h6, h7, h8, h9, h10⟩
  · rw [if_neg hb]
    exact ⟨⟨fun _ => rfl, fun _ => rfl⟩, h2, rfl, h4, h5, le_refl 0, le_trans h6 h7,
      h8, h9, fun hne => absurd rfl hne⟩

theorem runTrace_good :
    ∀ (tr : List Ev) (st : UttState) (t : Int), GoodState st t → ValidFrom t tr →
      ∃ t', t ≤ t' ∧ GoodState (runTrace st tr).1 t' := by
  intro tr
  induction tr with
  | nil => intro st t h _; exact ⟨t, le_refl t, h⟩
  | cons e rest ih =>
    intro st t h hv
    cases e with
    | tick now text =>
      obtain ⟨hle, h0, hv2⟩ := hv
      have hstep : GoodState (stepTick st now text).1 now :=
        maybeFinalize_good (processSegment_good h hle h0)
      obtain ⟨t', ht', hg⟩ := ih (stepTick st now text).1 now hstep hv2
      exact ⟨t', le_trans hle ht', hg⟩
    | stop =>
      have hstep : GoodState (stopFlush st).1 t := stopFlush_good h
      obtain ⟨t', ht', hg⟩ := ih (stopFlush st).1 t hstep hv
      exact ⟨t', ht', hg⟩

/-- C6: utterance state invariant.  After any valid sequence of capture-loop
ticks and stops starting from the idle state, the buffered text is empty iff
the start timestamp is unset, and the pending-finalize timestamp, whenever
set, is at least the last-speech timestamp. -/
theorem utterance_state_invariant (tr : List Ev) (hv : ValidFrom 0 tr) :
    ((runTrace initState tr).1.bufferText = [] ↔
      (runTrace initState tr).1.utteranceStartTs = 0) ∧
    ((runTrace initState tr).1.pendingFinalizeSince ≠ 0 →
      (runTrace initState tr).1.lastSpeechTs ≤
        (runTrace initState tr).1.pendingFinalizeSince) := by
  obtain ⟨t', _, hg⟩ := runTrace_good tr initState 0 initState_good hv
  exact ⟨hg.1, hg.2.1⟩

/-- Witness for C6 at a concrete valid trace. -/
theorem utterance_state_invariant_witness :
    ((runTrace initState [Ev.tick 1000 "hello".toList, Ev.stop]).1.bufferText = [] ↔
      (runTrace initState [Ev.tick 1000 "hello".toList, Ev.stop]).1.utteranceStartTs = 0) ∧
    ((runTrace initState [Ev.tick 1000 "hello".toList, Ev.stop]).1.pendingFinalizeSince ≠ 0 →
      (runTrace initState [Ev.tick 1000 "hello".toList, Ev.stop]).1.lastSpeechTs ≤
        (runTrace initState [Ev.tick 1000 "hello".toList, Ev.stop]).1.pendingFinalizeSince) :=
  utterance_state_invariant [Ev.tick 1000 "hello".toList, Ev.stop]
    ⟨by decide, by decide, trivial⟩

/-- C5: stop flushes and never drops.  In any state reached by a valid trace
from the idle state, stop with a non-empty buffer produces exactly one
emission carrying the buffered text and resets buffer and start timestamp;
stop with an empty buffer emits nothing and changes nothing. -/
theorem stop_flushes (tr : List Ev) (hv : ValidFrom 0 tr) :
    ((runTrace initState tr).1.bufferText ≠ [] →
      stopFlush (runTrace initState tr).1 =
        ({ (runTrace initState tr).1 with bufferText := [], utteranceStartTs := 0 },
          some (runTrace initState tr).1.bufferText)) ∧
    ((runTrace initState tr).1.bufferText = [] →
      stopFlush (runTrace initState tr).1 = ((runTrace initState tr).1, none)) := by
  obtain ⟨t', _, hg⟩ := runTrace_good tr initState 0 initState_good hv
  constructor
  · intro hne
    simp only [stopFlush]
    rw [if_neg hne, hg.2.2.1, if_neg hne]
  · intro he
    simp only [stopFlush]
    rw [if_pos he]

/-- Witness for C5 at a concrete valid trace ending with a non-empty buffer. -/
theorem stop_flushes_witness :
    stopFlush (runTrace initState [Ev.tick 1000 "hello world".toList]).1 =
      ({ (runTrace initState [Ev.tick 1000 "hello world".toList]).1 with
          bufferText := [], utteranceStartTs := 0 },
        some (runTrace initState [Ev.tick 1000 "hello world".toList]).1.bufferText) :=
  (stop_flushes [Ev.tick 1000 "hello world".toList]
    ⟨by decide, by decide, trivial⟩).1 (by decide)

theorem maybeFinalize_emit {st : UttState} {now : Int} {st' : UttState} {m : List Char}
    (h : maybeFinalize st now = (st', some m)) :
    m = pyStrip st.bufferText ∧ m ≠ [] := by
  by_cases hb : st.bufferText ≠ [] ∧ 0 < st.lastSpeechTs
  · by_cases hc : candidateCond st now
    · by_cases hp : st.pendingFinalizeSince = 0
      · rw [maybeFinalize_arm hb.1 hb.2 hc hp] at h
        exact absurd (congrArg Prod.snd h) (by simp)
      · by_cases hh : now - st.pendingFinalizeSince <
            (if isShortQuestion st.bufferText then (220 : Int) else confirmPauseMs)
        · rw [maybeFinalize_hold hb.1 hb.2 hc hp hh] at h
          exact absurd (congrArg Prod.snd h) (by simp)
        · rw [maybeFinalize_fire hb.1 hb.2 hc hp hh] at h
          by_cases hf : pyStrip st.bufferText = []
          · rw [if_pos hf] at h
            exact absurd (congrArg Prod.snd h) (by simp)
          · rw [if_neg hf] at h
            have hm := congrArg Prod.snd h
            simp only [Option.some.injEq] at hm
            exact ⟨hm.symm, hm ▸ hf⟩
    · rw [maybeFinalize_not_candidate hc] at h
      exact absurd (congrArg Prod.snd h) (by simp)
  · rw [maybeFinalize_no_buffer (by tauto)] at h
    exact absurd (congrArg Prod.snd h) (by simp)

theorem stopFlush_emit {st : UttState} {st' : UttState} {m : List Char}
    (h : stopFlush st = (st', some m)) : m = pyStrip st.bufferText ∧ m ≠ [] := by
  simp only [stopFlush] at h
  by_cases hb : st.bufferText = []
  · rw [if_pos hb] at h
    exact absurd (congrArg Prod.snd h) (by simp)
  · rw [if_neg hb] at h
    by_cases hf : pyStrip st.bufferText = []
    · rw [if_pos hf] at h
      exact absurd (congrArg Prod.snd h) (by simp)
    · rw [if_neg hf] at h
      have hm := congrArg Prod.snd h
      simp only [Option.some.injEq] at hm
      exact ⟨hm.symm, hm ▸ hf⟩

/-- C10: emissions are never empty.  Every utterance emitted by an event step,
whether by normal finalization on a tick or by a stop flush, is a stripped
non-empty string; and a tick with an empty buffer and no recognized text
performs no emission and leaves the state unchanged. -/
theorem emissions_nonempty :
    (∀ (st : UttState) (e : Ev) (st' : UttState) (m : List Char),
      stepEv st e = (st', some m) → m ≠ [] ∧ pyStrip m = m) ∧
    (∀ (st : UttState) (now : Int) (text : List Char),
      st.bufferText = [] → pyStrip text = [] →
      stepEv st (Ev.tick now text) = (st, none)) := by
  constructor
  · intro st e st' m h
    cases e with
    | tick now text =>
      have h' : maybeFinalize (processSegment st now text) now = (st', some m) := h
      obtain ⟨hm, hne⟩ := maybeFinalize_emit h'
      exact ⟨hne, by rw [hm, pyStrip_idem]⟩
    | stop =>
      obtain ⟨hm, hne⟩ := stopFlush_emit h
      exact ⟨hne, by rw [hm, pyStrip_idem]⟩
  · intro st now text hb ht
    show maybeFinalize (processSegment st now text) now = (st, none)
    rw [processSegment_of_empty ht]
    exact maybeFinalize_no_buffer (Or.inl hb)

/-- Witness for C10: a concrete finalizing tick emits a stripped non-empty
utterance, and a concrete empty-buffer tick is a no-op. -/
theorem emissions_nonempty_witness :
    ("hi".toList ≠ [] ∧ pyStrip "hi".toList = "hi".toList) ∧
    stepEv initState (Ev.tick 3000 []) = (initState, none) :=
  ⟨emissions_nonempty.1 ⟨"hi".toList, 1000, 1000, 1000⟩ (Ev.tick 5000 [])
      ⟨[], 1000, 0, 0⟩ "hi".toList (by decide),
    emissions_nonempty.2 initState 3000 [] (by decide) (by decide)⟩

theorem not_candidate_of_fresh_speech {st : UttState} {now : Int}
    (hls : st.lastSpeechTs = now)
    (hdur : utteranceDuration st now < maxUtteranceMs) :
    ¬ candidateCond st now := by
  intro h
  unfold candidateCond shortSilenceMs finalSilenceMs maxUtteranceMs at h
  unfold maxUtteranceMs at hdur
  rcases h with h | h | h | h | h
  · exact absurd h.2 (by omega)
  · exact absurd h.2 (by omega)
  · omega
  · omega
  · exact absurd h.2 (by omega)

/-- Counterexample to C2 as stated: from the idle state, a tick at 10 s
accumulates the segment "what is your name?", and ticks throughout the
following 0.6 s of silence (at 10.1 s through 10.6 s) produce no emission at
all; the buffer is still held.  Arming the short-question pending flag takes
0.55 s of silence and the confirmation hold adds another 0.22 s, so the
earliest possible emission is 0.77 s after the segment. -/
theorem short_question_600ms_no_emission :
    (runTrace initState
      [Ev.tick 10000 "what is your name?".toList, Ev.tick 10100 [], Ev.tick 10200 [],
       Ev.tick 10300 [], Ev.tick 10400 [], Ev.tick 10500 [], Ev.tick 10550 [],
       Ev.tick 10600 []]).2 = [] ∧
    (runTrace initState
      [Ev.tick 10000 "what is your name?".toList, Ev.tick 10100 [], Ev.tick 10200 [],
       Ev.tick 10300 [], Ev.tick 10400 [], Ev.tick 10500 [], Ev.tick 10550 [],
       Ev.tick 10600 []]).1.bufferText = "what is your name?".toList := by decide

/-- C2 amended: short-question fast finalize needs 0.55 s of silence to arm
the pending flag plus the 0.22 s confirmation hold.  From idle, a segment tick
at any positive time t followed by silent ticks at t + 0.55 s and t + 0.8 s
finalizes the utterance, emitting exactly "what is your name?". -/
theorem short_question_fast_finalize (t : Int) (ht : 0 < t) :
    runTrace initState
      [Ev.tick t "what is your name?".toList, Ev.tick (t + 550) [],
       Ev.tick (t + 800) []] =
    (⟨[], t, 0, 0⟩, ["what is your name?".toList]) := by
  have hq : pyStrip "what is your name?".toList = "what is your name?".toList := by decide
  have hbne : "what is your name?".toList ≠ ([] : List Char) := by decide
  have hsq : isShortQuestion "what is your name?".toList = true := by decide
  have hA : processSegment initState t "what is your name?".toList =
      ⟨"what is your name?".toList, t, t, 0⟩ := rfl
  have hB : maybeFinalize (⟨"what is your name?".toList, t, t, 0⟩ : UttState) t =
      (⟨"what is your name?".toList, t, t, 0⟩, none) :=
    maybeFinalize_not_candidate (not_candidate_of_fresh_speech rfl (by
      show (if (0 : Int) < t then t - t else 0) < maxUtteranceMs
      rw [if_pos ht]
      unfold maxUtteranceMs
      omega))
  have hC1 : processSegment (⟨"what is your name?".toList, t, t, 0⟩ : UttState)
      (t + 550) [] = ⟨"what is your name?".toList, t, t, 0⟩ := rfl
  have hC2 : maybeFinalize (⟨"what is your name?".toList, t, t, 0⟩ : UttState) (t + 550) =
      (⟨"what is your name?".toList, t, t, t + 550⟩, none) := by
    rw [maybeFinalize_arm hbne ht
      (Or.inr (Or.inr (Or.inr (Or.inr ⟨hsq, by
        show (550 : Int) ≤ t + 550 - t
        omega⟩)))) rfl]
  have hD1 : processSegment (⟨"what is your name?".toList, t, t, t + 550⟩ : UttState)
      (t + 800) [] = ⟨"what is your name?".toList, t, t, t + 550⟩ := rfl
  have hD2 : maybeFinalize (⟨"what is your name?".toList, t, t, t + 550⟩ : UttState)
      (t + 800) = (⟨[], t, 0, 0⟩, some "what is your name?".toList) := by
    rw [maybeFinalize_fire hbne ht
      (Or.inr (Or.inr (Or.inr (Or.inr ⟨hsq, by
        show (550 : Int) ≤ t + 800 - t
        omega⟩))))
      (by
        show t + 550 ≠ 0
        omega)
      (by
        show ¬ t + 800 - (t + 550) <
          (if isShortQuestion "what is your name?".toList then (220 : Int)
            else confirmPauseMs)
        rw [if_pos hsq]
        omega)]
    rw [if_neg (show ¬ pyStrip "what is your name?".toList = [] by decide), hq]
  simp only [runTrace, stepEv, stepTick, hA, hB, hC1, hC2, hD1, hD2]
  simp

/-- Witness for the amended C2 at t = 10 s. -/
theorem short_question_fast_finalize_witness :
    runTrace initState
      [Ev.tick 10000 "what is your name?".toList, Ev.tick (10000 + 550) [],
       Ev.tick (10000 + 800) []] =
    (⟨[], 10000, 0, 0⟩, ["what is your name?".toList]) :=
  short_question_fast_finalize 10000 (by decide)

/-- Counterexample to C3 as stated: non-empty segments arriving at every tick
clear the pending-finalize flag each time, so although the utterance duration
passes the 75 s cap (ticks at 10 s through 110 s, duration 100 s at the end),
no emission ever occurs and the buffer stays non-empty. -/
theorem max_duration_continuous_speech_no_emission :
    (runTrace initState
      [Ev.tick 10000 "ok".toList, Ev.tick 30000 "ok".toList, Ev.tick 50000 "ok".toList,
       Ev.tick 70000 "ok".toList, Ev.tick 90000 "ok".toList,
       Ev.tick 110000 "ok".toList]).2 = [] ∧
    (runTrace initState
      [Ev.tick 10000 "ok".toList, Ev.tick 30000 "ok".toList, Ev.tick 50000 "ok".toList,
       Ev.tick 70000 "ok".toList, Ev.tick 90000 "ok".toList,
       Ev.tick 110000 "ok".toList]).1.bufferText ≠ [] ∧
    maxUtteranceMs ≤ 110000 -
      (runTrace initState
        [Ev.tick 10000 "ok".toList, Ev.tick 30000 "ok".toList, Ev.tick 50000 "ok".toList,
         Ev.tick 70000 "ok".toList, Ev.tick 90000 "ok".toList,
         Ev.tick 110000 "ok".toList]).1.utteranceStartTs := by decide

/-- C3 amended: once the utterance duration reaches the 75 s cap, finalization
is a candidate regardless of content and silence, but emission still requires
the confirmation hold to pass with no new speech: a silent tick arms the
pending flag without emitting, and a second silent tick 0.7 s later emits the
buffered utterance. -/
theorem max_duration_finalize_on_silence (st : UttState) (now : Int)
    (hb : st.bufferText ≠ []) (hstrip : pyStrip st.bufferText = st.bufferText)
    (hl : 0 < st.lastSpeechTs) (hs : 0 < st.utteranceStartTs)
    (hp : st.pendingFinalizeSince = 0)
    (hdur : maxUtteranceMs ≤ now - st.utteranceStartTs) :
    stepTick st now [] = ({ st with pendingFinalizeSince := now }, none) ∧
    stepTick { st with pendingFinalizeSince := now } (now + 700) [] =
      (⟨[], st.lastSpeechTs, 0, 0⟩, some st.bufferText) := by
  have hcand1 : candidateCond st now :=
    Or.inr (Or.inr (Or.inr (Or.inl (by
      unfold utteranceDuration
      rw [if_pos hs]
      exact hdur))))
  have hnow : 0 < now := by
    have h := hdur
    unfold maxUtteranceMs at h
    omega
  constructor
  · show maybeFinalize (processSegment st now []) now = _
    rw [processSegment_of_empty (show pyStrip ([] : List Char) = [] from rfl),
      maybeFinalize_arm hb hl hcand1 hp]
  · show maybeFinalize (processSegment { st with pendingFinalizeSince := now }
      (now + 700) []) (now + 700) = _
    rw [processSegment_of_empty (show pyStrip ([] : List Char) = [] from rfl)]
    have hcand2 : candidateCond { st with pendingFinalizeSince := now } (now + 700) :=
      Or.inr (Or.inr (Or.inr (Or.inl (by
        show maxUtteranceMs ≤ if 0 < st.utteranceStartTs then
          now + 700 - st.utteranceStartTs else 0
        rw [if_pos hs]
        omega))))
    rw [@maybeFinalize_fire { st with pendingFinalizeSince := now } (now + 700)
      hb hl hcand2
      (show now ≠ 0 from by omega)
      (by
        show ¬ now + 700 - now <
          (if isShortQuestion st.bufferText then (220 : Int) else confirmPauseMs)
        by_cases hq : isShortQuestion st.bufferText = true
        · rw [if_pos hq]
          omega
        · rw [if_neg hq]
          unfold confirmPauseMs
          omega)]
    rw [hstrip, if_neg hb]

/-- Witness for the amended C3 at a concrete over-cap state. -/
theorem max_duration_finalize_on_silence_witness :
    stepTick ⟨"ok".toList, 80000, 5000, 0⟩ 80000 [] =
      (⟨"ok".toList, 80000, 5000, 80000⟩, none) ∧
    stepTick ⟨"ok".toList, 80000, 5000, 80000⟩ (80000 + 700) [] =
      (⟨[], 80000, 0, 0⟩, some "ok".toList) :=
  max_duration_finalize_on_silence ⟨"ok".toList, 80000, 5000, 0⟩ 80000
    (by decide) (by decide) (by decide) (by decide) (by decide) (by decide)

/-- Counterexample to C4 as stated: in the confirmation window at 75.3 s of
utterance duration (so past the 75 s cap), a tick carrying new speech before
the hold elapses (0.1 s into the 0.22 s short-question hold) does merge the
segment and emit nothing, but pendingFinalizeSince ends the tick re-armed at
the tick time rather than cleared, so the state is not ACCUMULATING. -/
theorem debounce_at_max_duration_not_cleared :
    (stepTick ⟨"hello".toList, 80000, 5000, 80200⟩ 80300 "there".toList).1.pendingFinalizeSince
      = 80300 ∧
    (stepTick ⟨"hello".toList, 80000, 5000, 80200⟩ 80300 "there".toList).2 = none ∧
    (stepTick ⟨"hello".toList, 80000, 5000, 80200⟩ 80300 "there".toList).1.bufferText =
      "hello there".toList ∧
    ((80300 : Int) - 80200 <
      if isShortQuestion "hello".toList then (220 : Int) else confirmPauseMs) := by decide

/-- C4 amended: in the confirmation window, a tick with non-empty text before
the hold elapses clears the pending flag, emits nothing, and merges the
segment into the buffer, provided the utterance duration has not reached the
75 s cap (at or past the cap the pending flag is re-armed at the same tick,
though still with no emission and with the segment merged). -/
theorem debounce_cancels_on_new_speech (st : UttState) (now : Int) (text : List Char)
    (hpend : st.pendingFinalizeSince ≠ 0) (hb : st.bufferText ≠ [])
    (ht : pyStrip text ≠ []) (h0 : 0 < now) (hs : 0 < st.utteranceStartTs)
    (hhold : now - st.pendingFinalizeSince <
      (if isShortQuestion st.bufferText then (220 : Int) else confirmPauseMs))
    (hdur : now - st.utteranceStartTs < maxUtteranceMs) :
    stepTick st now text =
      (⟨mergeTranscript st.bufferText (pyStrip text), now, st.utteranceStartTs, 0⟩,
        none) := by
  show maybeFinalize (processSegment st now text) now = _
  rw [processSegment_of_speech ht, if_neg hb,
    if_neg (show st.utteranceStartTs ≠ 0 from by omega)]
  exact maybeFinalize_not_candidate (not_candidate_of_fresh_speech rfl (by
    show (if 0 < st.utteranceStartTs then now - st.utteranceStartTs else 0) <
      maxUtteranceMs
    rw [if_pos hs]
    exact hdur))

/-- Witness for the amended C4 at a concrete in-window state. -/
theorem debounce_cancels_on_new_speech_witness :
    stepTick ⟨"hello".toList, 20000, 5000, 20200⟩ 20300 "there".toList =
      (⟨"hello there".toList, 20300, 5000, 0⟩, none) :=
  debounce_cancels_on_new_speech ⟨"hello".toList, 20000, 5000, 20200⟩ 20300
    "there".toList (by decide) (by decide) (by decide) (by decide) (by decide)
    (by decide) (by decide)

/-- Floor-bounded lowered energy threshold of the ai_desktop.py retry (line
341): max(50, threshold - 50).  The source thresholds are integer-valued
floats, modelled as integers. -/
def loweredThreshold (thr : Int) : Int := max 50 (thr - 50)

/-- Recognition retry of ai_desktop.py (lines 336-345): when every
recognition attempt has returned empty text, the loop saves the threshold,
lowers it to loweredThreshold, and retries Google once.  The recognizer is
external, so its outcome is a parameter: some text when the call completes,
none when it raises.  On a completed call the original threshold is restored;
when the call raises, the except/pass path skips the restore, leaving the
lowered threshold in place and the text empty.  The result is the pair of the
threshold after the block and the text. -/
def emptyTextRetry (thr : Int) (retryResult : Option (List Char)) : Int × List Char :=
  match retryResult with
  | some t => (thr, t)
  | none => (loweredThreshold thr, [])

/-- Counterexample to C7 as stated: the only capture-sensitivity adjustment in
any segment-processing path of this repository is the empty-text retry of
ai_desktop.py, whose trigger is empty recognition output, not short text, and
which restores the original threshold when the retry completes: starting from
threshold 150, the block ends at threshold 150, not lower.  The confirm-window
loop of ai_inter.py adjusts no threshold during segment processing at all. -/
theorem sensitivity_nudge_not_persistent :
    (emptyTextRetry 150 (some "hi".toList)).1 = 150 ∧
    ¬ (emptyTextRetry 150 (some "hi".toList)).1 < 150 := by decide

/-- C7 amended: in ai_desktop.py, when a segment's recognition output is
empty, the loop retries once with the energy threshold temporarily lowered to
max(50, threshold - 50) — bounded below by the floor 50 and not above the
original threshold when that is at least the floor; the original threshold is
restored whenever the retry completes, and only a raising retry leaves the
lowered threshold behind.  The ai_inter.py confirm-window loop has no such
adjustment. -/
theorem empty_text_retry_threshold (thr : Int) :
    (∀ t, emptyTextRetry thr (some t) = (thr, t)) ∧
    emptyTextRetry thr none = (loweredThreshold thr, []) ∧
    50 ≤ loweredThreshold thr ∧
    (50 ≤ thr → loweredThreshold thr ≤ thr) := by
  refine ⟨fun t => rfl, rfl, le_max_left _ _, fun h => ?_⟩
  exact max_le h (by omega)

/-- Witness for the amended C7 at threshold 150. -/
theorem empty_text_retry_threshold_witness :
    emptyTextRetry 150 (some "hi".toList) = (150, "hi".toList) ∧
    emptyTextRetry 150 none = (loweredThreshold 150, []) ∧
    50 ≤ loweredThreshold 150 ∧ loweredThreshold 150 ≤ 150 :=
  ⟨(empty_text_retry_threshold 150).1 "hi".toList,
    (empty_text_retry_threshold 150).2.1,
    (empty_text_retry_threshold 150).2.2.1,
    (empty_text_retry_threshold 150).2.2.2 (by decide)⟩

/-- Virtual-device deny-list of the microphone selection (ai_inter.py lines
188-192). -/
def virtualTerms : List (List Char) :=
  ["virtual".toList, "vb-audio".toList, "cable".toList, "stereo mix".toList,
   "mix".toList, "loopback".toList, "what u hear".toList, "what-you-hear".toList,
   "wave out".toList, "output".toList, "speaker".toList, "monitor of".toList,
   "line (voicemeeter".toList, "ndis".toList, "aux".toList]

/-- is_virtual of the microphone selection (ai_inter.py lines 186-193). -/
def is_virtual (name : List Char) : Bool :=
  virtualTerms.any fun t => pyContains t (toLowerList name)

/-- score_device of the microphone selection (ai_inter.py lines 195-206). -/
def score_device (name : List Char) : Int :=
  let n := toLowerList name
  (if ["mic".toList, "microphone".toList, "array".toList, "headset".toList].any
      (fun k => pyContains k n) then 100 else 0) +
  (if pyContains "usb".toList n then 50 else 0) +
  (if ["realtek".toList, "intel".toList, "high definition audio".toList,
      "built-in".toList, "internal".toList].any (fun k => pyContains k n)
    then 20 else 0) -
  (if pyContains "headphones".toList n && !(pyContains "mic".toList n) &&
      !(pyContains "microphone".toList n) then 60 else 0)

/-- Python enumerate over the microphone name list. -/
def enumIdx : Nat → List (List Char) → List (Nat × List Char)
  | _, [] => []
  | i, a :: as => (i, a) :: enumIdx (i + 1) as

/-- Python max over a non-empty candidate list keyed on the third component:
fold keeping the current best, replacing it only on a strictly larger key, so
the first maximal element wins. -/
def maxByScore (c : Nat × List Char × Int) (cs : List (Nat × List Char × Int)) :
    Nat × List Char × Int :=
  cs.foldl (fun best x => if best.2.2 < x.2.2 then x else best) c

/-- Microphone auto-selection (ai_inter.py lines 183-222): enumerate devices,
drop deny-listed names, score the rest and pick the index of the best score;
none stands for falling back to the system default microphone. -/
def selectDevice (micList : List (List Char)) : Option Nat :=
  match ((enumIdx 0 micList).filter fun p => !(is_virtual p.2)).map
      (fun p => (p.1, p.2, score_device p.2)) with
  | [] => none
  | c :: cs => some (maxByScore c cs).1

theorem maxByScore_unfold (c x : Nat × List Char × Int)
    (xs : List (Nat × List Char × Int)) :
    maxByScore c (x :: xs) = maxByScore (if c.2.2 < x.2.2 then x else c) xs := rfl

theorem maxByScore_mem :
    ∀ (cs : List (Nat × List Char × Int)) (c), maxByScore c cs ∈ c :: cs := by
  intro cs
  induction cs with
  | nil => intro c; exact List.mem_singleton.2 rfl
  | cons x xs ih =>
    intro c
    rw [maxByScore_unfold]
    by_cases hc : c.2.2 < x.2.2
    · rw [if_pos hc]
      exact List.mem_cons.2 (Or.inr (ih x))
    · rw [if_neg hc]
      rcases List.mem_cons.1 (ih c) with h1 | h1
      · exact List.mem_cons.2 (Or.inl h1)
      · exact List.mem_cons.2 (Or.inr (List.mem_cons.2 (Or.inr h1)))

theorem maxByScore_ge :
    ∀ (cs : List (Nat × List Char × Int)) (c), ∀ y ∈ c :: cs,
      y.2.2 ≤ (maxByScore c cs).2.2 := by
  intro cs
  induction cs with
  | nil =>
    intro c y hy
    rcases List.mem_cons.1 hy with h1 | h1
    · subst h1
      exact le_refl _
    · exact absurd h1 (List.not_mem_nil y)
  | cons x xs ih =>
    intro c y hy
    rw [maxByScore_unfold]
    by_cases hc : c.2.2 < x.2.2
    · rw [if_pos hc]
      rcases List.mem_cons.1 hy with h1 | h1
      · subst h1
        exact le_trans (le_of_lt hc) (ih x x (List.mem_cons.2 (Or.inl rfl)))
      · exact ih x y h1
    · rw [if_neg hc]
      rcases List.mem_cons.1 hy with h1 | h1
      · subst h1
        exact ih y y (List.mem_cons.2 (Or.inl rfl))
      · rcases List.mem_cons.1 h1 with h2 | h2
        · subst h2
          exact le_trans (le_of_not_lt hc) (ih c c (List.mem_cons.2 (Or.inl rfl)))
        · exact ih c y (List.mem_cons.2 (Or.inr h2))

theorem mem_enumIdx :
    ∀ (l : List (List Char)) (i j : Nat) (a : List Char),
      (j, a) ∈ enumIdx i l ↔ i ≤ j ∧ l.get? (j - i) = some a := by
  intro l
  induction l with
  | nil =>
    intro i j a
    simp [enumIdx]
  | cons b t ih =>
    intro i j a
    simp only [enumIdx, List.mem_cons, Prod.mk.injEq, ih]
    constructor
    · rintro (⟨h1, h2⟩ | ⟨h1, h2⟩)
      · subst h1
        subst h2
        exact ⟨le_refl j, by simp⟩
      · refine ⟨by omega, ?_⟩
        have hj : j - i = (j - (i + 1)) + 1 := by omega
        rw [hj]
        simpa using h2
    · rintro ⟨h1, h2⟩
      by_cases hji : j = i
      · subst hji
        left
        rw [Nat.sub_self] at h2
        simp only [List.get?_cons_zero, Option.some.injEq] at h2
        exact ⟨rfl, h2.symm⟩
      · right
        refine ⟨by omega, ?_⟩
        have hj : j - i = (j - (i + 1)) + 1 := by omega
        rw [hj] at h2
        simpa using h2

/-- C8: device auto-selection.  For every enumerated microphone list, an
auto-selected index always points at a device that is not on the virtual
deny-list and whose score is at least that of every other surviving device;
and when every device matches the deny-list, no device is auto-selected and
the system default is used. -/
theorem device_selection (micList : List (List Char)) :
    (∀ i, selectDevice micList = some i →
      ∃ name, micList.get? i = some name ∧ is_virtual name = false ∧
        ∀ j name2, micList.get? j = some name2 → is_virtual name2 = false →
          score_device name2 ≤ score_device name) ∧
    ((∀ name ∈ micList, is_virtual name = true) → selectDevice micList = none) := by
  constructor
  · intro i hsel
    unfold selectDevice at hsel
    split at hsel
    · exact absurd hsel (by simp)
    · rename_i c cs heq
      simp only [Option.some.injEq] at hsel
      have hmem : maxByScore c cs ∈
          ((enumIdx 0 micList).filter fun p => !(is_virtual p.2)).map
            (fun p => (p.1, p.2, score_device p.2)) := by
        rw [heq]
        exact maxByScore_mem cs c
      obtain ⟨p, hpf, hpeq⟩ := List.mem_map.1 hmem
      obtain ⟨hpe, hpv⟩ := List.mem_filter.1 hpf
      have hpenum : 0 ≤ p.1 ∧ micList.get? (p.1 - 0) = some p.2 :=
        (mem_enumIdx micList 0 p.1 p.2).1 hpe
      have hvf : is_virtual p.2 = false := by
        simpa using hpv
      have hget : micList.get? i = some p.2 := by
        rw [← hsel, ← hpeq]
        simpa using hpenum.2
      have hmax : ∀ j name2, micList.get? j = some name2 → is_virtual name2 = false →
          score_device name2 ≤ score_device p.2 := by
        intro j name2 hj hv2
        have hm2 : (j, name2, score_device name2) ∈
            ((enumIdx 0 micList).filter fun p => !(is_virtual p.2)).map
              (fun p => (p.1, p.2, score_device p.2)) := by
          refine List.mem_map.2 ⟨(j, name2), ?_, rfl⟩
          refine List.mem_filter.2 ⟨(mem_enumIdx micList 0 j name2).2
            ⟨Nat.zero_le j, by simpa using hj⟩, by simp [hv2]⟩
        rw [heq] at hm2
        have hle := maxByScore_ge cs c (j, name2, score_device name2) hm2
        rw [← hpeq] at hle
        simpa using hle
      exact ⟨p.2, hget, hvf, hmax⟩
  · intro hall
    unfold selectDevice
    have hfilter : (enumIdx 0 micList).filter (fun p => !(is_virtual p.2)) = [] := by
      rw [List.filter_eq_nil_iff]
      intro p hp
      have hm : p.2 ∈ micList := by
        have h2 := ((mem_enumIdx micList 0 p.1 p.2).1 hp).2
        rw [Nat.sub_zero] at h2
        exact List.get?_mem h2
      simp [hall p.2 hm]
    rw [hfilter]
    rfl

/-- Witness for C8: a concrete list where the virtual devices are skipped and
the USB microphone wins, and a concrete all-virtual list that falls back to
the default device. -/
theorem device_selection_witness :
    (∃ name, ["Stereo Mix (Realtek High Definition Audio)".toList,
        "Microphone (USB Audio Device)".toList,
        "Speakers (High Definition Audio)".toList].get? 1 = some name ∧
      is_virtual name = false ∧
      ∀ j name2, ["Stereo Mix (Realtek High Definition Audio)".toList,
          "Microphone (USB Audio Device)".toList,
          "Speakers (High Definition Audio)".toList].get? j = some name2 →
        is_virtual name2 = false → score_device name2 ≤ score_device name) ∧
    selectDevice ["Stereo Mix (Realtek High Definition Audio)".toList,
      "CABLE Output (VB-Audio Virtual Cable)".toList] = none :=
  ⟨(device_selection _).1 1 (by decide), (device_selection _).2 (by decide)⟩

end AIInterview
